import Mathlib

/-!
Verification development for the text-extraction toolkit.

The detection pipeline of `src/text_detection.py` is embedded shallowly:
numeric tensor entries become rationals, the dense score/geometry tensors
become index functions, and the Python loops become folds that append to an
accumulator exactly as the source appends to its `rects`, `confidences` and
`text_regions` lists.  The trigonometric functions applied to the angle
channel are abstracted as parameters `cosF` and `sinF`, since the claims do
not depend on their values.  `cv2.dnn.NMSBoxes` is external library code not
present in the repository; it is modelled from the specification (section
4.2).  The extraction driver of `app.py` is embedded with the preprocessing
and recognition capabilities abstracted as option-valued functions.
-/

set_option allowUnsafeReducibility true
attribute [semireducible] Rat.mul Rat.add Rat.sub Rat.inv Rat.ofScientific

/-- An axis-aligned box with integer pixel coordinates, as stored in the
`rects` and `text_regions` lists of the source. -/
structure Box where
  startX : ℤ
  startY : ℤ
  endX : ℤ
  endY : ℤ
deriving DecidableEq, Repr

/-- A decoded candidate: a box paired with the confidence appended to the
`confidences` list at the same loop iteration. -/
structure Cand where
  box : Box
  conf : ℚ
deriving DecidableEq, Repr

/-- The Python `int(...)` conversion applied to a numeric value: truncation
toward zero (the denominator of a rational is positive, so truncating
division of the numerator by the denominator is exactly that). -/
def pyInt (q : ℚ) : ℤ := q.num.tdiv (q.den : ℤ)

/-- The score tensor: `numRows` and `numCols` are `scores.shape[2:4]` and
`score y x` is `scores[0, 0, y][x]`. -/
structure ScoreMap where
  numRows : ℕ
  numCols : ℕ
  score : ℕ → ℕ → ℚ

/-- The geometry tensor: `d0 y x` is `geometry[0, 0, y][x]` and so on for the
five channels. -/
structure GeoMap where
  d0 : ℕ → ℕ → ℚ
  d1 : ℕ → ℕ → ℚ
  d2 : ℕ → ℕ → ℚ
  d3 : ℕ → ℕ → ℚ
  angle : ℕ → ℕ → ℚ

/-- The geometry decode loop of `detect_text_regions` (lines 39-61): for each
cell, skip when the score is below `min_confidence`, otherwise append the
candidate computed from the geometry channels.  `cosF` and `sinF` stand for
`np.cos` and `np.sin`. -/
def decode (sm : ScoreMap) (gm : GeoMap) (cosF sinF : ℚ → ℚ)
    (min_confidence : ℚ) : List Cand :=
  (List.range sm.numRows).foldl (fun acc y =>
    (List.range sm.numCols).foldl (fun acc2 x =>
      if sm.score y x < min_confidence then acc2
      else
        let offset_x : ℚ := (x : ℚ) * 4
        let offset_y : ℚ := (y : ℚ) * 4
        let c := cosF (gm.angle y x)
        let s := sinF (gm.angle y x)
        let h := gm.d0 y x + gm.d2 y x
        let w := gm.d1 y x + gm.d3 y x
        let endX := pyInt (offset_x + c * gm.d1 y x + s * gm.d2 y x)
        let endY := pyInt (offset_y - s * gm.d1 y x + c * gm.d2 y x)
        let startX := pyInt ((endX : ℚ) - w)
        let startY := pyInt ((endY : ℚ) - h)
        acc2 ++ [{ box := { startX := startX, startY := startY,
                            endX := endX, endY := endY },
                   conf := sm.score y x }]) acc) []

/-- The per-cell emission of the decode loop: `none` when the cell is below
the confidence threshold, otherwise the single candidate the loop appends. -/
def decodeCell (sm : ScoreMap) (gm : GeoMap) (cosF sinF : ℚ → ℚ)
    (min_confidence : ℚ) (y x : ℕ) : Option Cand :=
  if sm.score y x < min_confidence then none
  else
    let offset_x : ℚ := (x : ℚ) * 4
    let offset_y : ℚ := (y : ℚ) * 4
    let c := cosF (gm.angle y x)
    let s := sinF (gm.angle y x)
    let h := gm.d0 y x + gm.d2 y x
    let w := gm.d1 y x + gm.d3 y x
    let endX := pyInt (offset_x + c * gm.d1 y x + s * gm.d2 y x)
    let endY := pyInt (offset_y - s * gm.d1 y x + c * gm.d2 y x)
    let startX := pyInt ((endX : ℚ) - w)
    let startY := pyInt ((endY : ℚ) - h)
    some { box := { startX := startX, startY := startY,
                    endX := endX, endY := endY },
           conf := sm.score y x }

/-- Width of the intersection of two corner-format boxes. -/
def interW (a b : Box) : ℤ := max 0 (min a.endX b.endX - max a.startX b.startX)

/-- Height of the intersection of two corner-format boxes. -/
def interH (a b : Box) : ℤ := max 0 (min a.endY b.endY - max a.startY b.startY)

/-- Signed area of a corner-format box. -/
def boxArea (b : Box) : ℤ := (b.endX - b.startX) * (b.endY - b.startY)

/-- Intersection over union of two corner-format boxes
(area of intersection divided by area of union). -/
def iou (a b : Box) : ℚ :=
  ((interW a b * interH a b : ℤ) : ℚ) /
    ((boxArea a + boxArea b - interW a b * interH a b : ℤ) : ℚ)

/-- Modelled from the spec: the stable descending-by-confidence insertion used
by the Region Suppressor (section 4.2), which sorts candidates by descending
confidence with a first-seen-wins tie-break.  The suppression primitive
`cv2.dnn.NMSBoxes` is external library code absent from the repository. -/
def insertDesc (c : Cand) : List Cand → List Cand
  | [] => [c]
  | b :: rest => if b.conf ≤ c.conf then c :: b :: rest else b :: insertDesc c rest

/-- Modelled from the spec: stable sort by descending confidence
(section 4.2, first step of greedy non-maximum suppression). -/
def sortDesc : List Cand → List Cand
  | [] => []
  | c :: rest => insertDesc c (sortDesc rest)

/-- Modelled from the spec: the greedy phase of non-maximum suppression
(section 4.2) — repeatedly keep the highest-scoring remaining candidate and
discard all others whose intersection over union with it exceeds
`thr`.  The first argument is fuel bounding the recursion depth. -/
def greedyAux (thr : ℚ) : ℕ → List Cand → List Cand
  | 0, _ => []
  | _ + 1, [] => []
  | n + 1, b :: rest =>
      b :: greedyAux thr n (rest.filter fun c => decide (iou b.box c.box ≤ thr))

/-- Modelled from the spec: greedy non-maximum suppression (section 4.2),
standing in for the external `cv2.dnn.NMSBoxes` call on line 62 of
`text_detection.py`. -/
def nms (thr : ℚ) (l : List Cand) : List Cand :=
  greedyAux thr (sortDesc l).length (sortDesc l)

/-- The normalization applied to one retained box (lines 67-76 of
`text_detection.py`): clamp the start corner to at least 0 and the end corner
to at most the image size, then pad by 5 pixels on every side, re-clamping. -/
def normBox (W H : ℤ) (b : Box) : Box :=
  let startX := max 0 b.startX
  let startY := max 0 b.startY
  let endX := min W b.endX
  let endY := min H b.endY
  let startX := max 0 (startX - 5)
  let startY := max 0 (startY - 5)
  let endX := min W (endX + 5)
  let endY := min H (endY + 5)
  { startX := startX, startY := startY, endX := endX, endY := endY }

/-- The loop building `text_regions` (lines 65-77 of `text_detection.py`):
normalize each retained candidate in order and append it. -/
def normalizeRegions (W H : ℤ) (retained : List Cand) : List Box :=
  retained.foldl (fun acc c => acc ++ [normBox W H c.box]) []

/-- The `text_regions` list computed by `detect_text_regions` from the raw
network tensors: decode, suppress (threshold 0.3), normalize. -/
def text_regions (sm : ScoreMap) (gm : GeoMap) (cosF sinF : ℚ → ℚ)
    (min_confidence : ℚ) (W H : ℤ) : List Box :=
  normalizeRegions W H (nms (3 / 10) (decode sm gm cosF sinF min_confidence))

/-- The environment of `detect_text_regions`: the file system, `cv2.imread`,
`cv2.dnn.readNet` (`none` models the exception path), the network forward
pass, the image shape, and the trigonometric functions.  `Img` and `Net` are
the abstract types of loaded images and networks. -/
structure DetectEnv (Img Net : Type) where
  fileExists : String → Bool
  imread : String → Option Img
  readNet : Option Net
  forward : Net → Img → ScoreMap × GeoMap
  dims : Img → ℤ × ℤ
  cosF : ℚ → ℚ
  sinF : ℚ → ℚ

/-- Image acquisition at the top of `detect_text_regions` (lines 14-23): a
string argument is checked for existence and read; an array argument is used
directly; `none` is the `return None, None, None` outcome. -/
def loadImage {Img Net : Type} (env : DetectEnv Img Net)
    (input : String ⊕ Img) : Option Img :=
  match input with
  | Sum.inl path => if env.fileExists path then env.imread path else none
  | Sum.inr img => some img

/-- The whole `detect_text_regions` operation: `none` models the
`return None, None, None` failure outcome (image missing or unreadable, or
the model failing to load); `some regions` models the successful return of
the `text_regions` list.  `dims` returns `(H, W)` as `image.shape[:2]` does. -/
def detect_text_regions {Img Net : Type} (env : DetectEnv Img Net)
    (input : String ⊕ Img) (min_confidence : ℚ) : Option (List Box) :=
  match loadImage env input with
  | none => none
  | some img =>
    match env.readNet with
    | none => none
    | some net =>
      some (text_regions (env.forward net img).1 (env.forward net img).2
        env.cosF env.sinF min_confidence (env.dims img).2 (env.dims img).1)

/-- The length of the Python slice `a[start:stop]` over an axis of size `n`:
negative indices count from the end, then both are clamped to `[0, n]`. -/
def pySliceLen (n start stop : ℤ) : ℤ :=
  let s := if start < 0 then max 0 (n + start) else min start n
  let e := if stop < 0 then max 0 (n + stop) else min stop n
  max 0 (e - s)

/-- The `roi.size == 0 or roi.shape[0] == 0 or roi.shape[1] == 0` test of
`app.py` line 88, for the slice `original_image[startY:endY, startX:endX]`:
true exactly when the sliced row range or column range is empty. -/
def roiEmpty (W H : ℤ) (r : Box) : Bool :=
  pySliceLen H r.startY r.endY == 0 || pySliceLen W r.startX r.endX == 0

/-- The Python `str.strip()` used on the recognized text: drop leading and
trailing whitespace. -/
def pyStrip (s : String) : String :=
  ⟨((s.data.dropWhile Char.isWhitespace).reverse.dropWhile
      Char.isWhitespace).reverse⟩

/-- The external capabilities consumed by the extraction loop of `app.py`:
`preprocess` models `preprocess_image` applied to the crop at a region
(`none` is the `processed_roi is None` failure), `recognize` models
`pytesseract.image_to_string` (`none` is the exception path).  `γ` is the
abstract type of preprocessed crops. -/
structure OcrEnv (γ : Type) where
  preprocess : Box → Option γ
  recognize : γ → Option String

/-- The per-region outcome of the extraction loop of
`extract_text_from_image_array` (lines 87-100 of `app.py`): empty crop,
preprocessing failure and recognition failure all record the empty string,
otherwise the stripped recognized text is recorded. -/
def perRegionText {γ : Type} (env : OcrEnv γ) (W H : ℤ) (r : Box) : String :=
  if roiEmpty W H r then ""
  else
    match env.preprocess r with
    | none => ""
    | some p =>
      match env.recognize p with
      | none => ""
      | some t => pyStrip t

/-- The extraction loop of `extract_text_from_image_array` (lines 83-104 of
`app.py`): build `all_extracted_text` by appending one string per region in
order, then return the blank-line-joined concatenation of the non-empty
entries together with the per-region list. -/
def extract_text_from_image_array {γ : Type} (env : OcrEnv γ) (W H : ℤ)
    (regions : List Box) : String × List String :=
  let all_extracted_text := regions.foldl (fun acc r =>
    acc ++ [if roiEmpty W H r then ""
            else
              match env.preprocess r with
              | none => ""
              | some p =>
                match env.recognize p with
                | none => ""
                | some t => pyStrip t]) []
  (String.intercalate "\n\n" (all_extracted_text.filter fun t => !(t == "")),
    all_extracted_text)

/-- Stand-in for `np.cos` evaluated where every angle entry is 0. -/
def cosOne : ℚ → ℚ := fun _ => 1

/-- Stand-in for `np.sin` evaluated where every angle entry is 0. -/
def sinZero : ℚ → ℚ := fun _ => 0

/-- A 1-by-1 score map whose single cell scores 9/10. -/
def smOne : ScoreMap := ⟨1, 1, fun _ _ => 9 / 10⟩

/-- A 1-by-1 score map whose single cell scores 1/4. -/
def smLow : ScoreMap := ⟨1, 1, fun _ _ => 1 / 4⟩

/-- Geometry whose single cell decodes (at angle 0) to the box
(0, 0, 10, 10). -/
def gmSmall : GeoMap := ⟨fun _ _ => 0, fun _ _ => 10, fun _ _ => 10,
  fun _ _ => 0, fun _ _ => 0⟩

/-- Geometry whose single cell decodes (at angle 0) to the box
(200, 200, 210, 210), entirely outside a 100-by-100 image. -/
def gmFar : GeoMap := ⟨fun _ _ => -200, fun _ _ => 210, fun _ _ => 210,
  fun _ _ => -200, fun _ _ => 0⟩

/-- A 1-by-2 score map scoring 9/10 and 8/10. -/
def smTwo : ScoreMap := ⟨1, 2, fun _ x => if x = 0 then 9 / 10 else 8 / 10⟩

/-- Geometry whose two cells decode (at angle 0) to the adjacent boxes
(0, 0, 10, 10) and (10, 0, 20, 10). -/
def gmTwo : GeoMap := ⟨fun _ _ => 0,
  fun _ x => if x = 0 then 10 else 16,
  fun _ _ => 10,
  fun _ x => if x = 0 then 0 else -6,
  fun _ _ => 0⟩

/-- An extraction environment whose capabilities always succeed. -/
def envOcrGood : OcrEnv Unit := ⟨fun _ => some (), fun _ => some " hi "⟩

/-- An extraction environment where the region at column 0 fails
preprocessing, the region at row 0 fails recognition, and the rest
recognizes as " ok ". -/
def envOcrMixed : OcrEnv Bool :=
  ⟨fun r => if r.startX == 0 then none else some (r.startY == 0),
   fun p => if p then none else some " ok "⟩

/-- A detection environment whose image file is missing and whose model
loads: the image-unreadable failure. -/
def envImgFail : DetectEnv Unit Unit :=
  ⟨fun _ => false, fun _ => none, some (), fun _ _ => (smOne, gmSmall),
   fun _ => (100, 100), fun _ => 1, fun _ => 0⟩

/-- A detection environment whose image loads and whose model is
unavailable: the resource-unavailable failure. -/
def envNetFail : DetectEnv Unit Unit :=
  ⟨fun _ => true, fun _ => some (), none, fun _ _ => (smOne, gmSmall),
   fun _ => (100, 100), fun _ => 1, fun _ => 0⟩

/-- A detection environment where everything loads and the network output
has no cell passing the threshold: the zero-regions outcome. -/
def envZero : DetectEnv Unit Unit :=
  ⟨fun _ => true, fun _ => some (), some (), fun _ _ => (smLow, gmSmall),
   fun _ => (100, 100), fun _ => 1, fun _ => 0⟩

theorem foldl_of_append {α β : Type} (F : List β → α → List β) (g : α → List β)
    (hF : ∀ acc x, F acc x = acc ++ g x) :
    ∀ (l : List α) (acc : List β), l.foldl F acc = acc ++ l.flatMap g := by
  intro l
  induction l with
  | nil => intro acc; simp
  | cons x xs ih => intro acc; simp [hF, ih]

theorem foldl_skip_append {α β : Type} (P : α → Prop) [DecidablePred P]
    (f : α → β) :
    ∀ (l : List α) (acc : List β),
      l.foldl (fun a x => if P x then a else a ++ [f x]) acc =
        acc ++ (l.filter fun x => !decide (P x)).map f := by
  intro l
  induction l with
  | nil => intro acc; simp
  | cons x xs ih =>
    intro acc
    by_cases hx : P x <;> simp [hx, ih]

theorem foldl_append_map {α β : Type} (f : α → β) :
    ∀ (l : List α) (acc : List β),
      l.foldl (fun a x => a ++ [f x]) acc = acc ++ l.map f := by
  intro l
  induction l with
  | nil => intro acc; simp
  | cons x xs ih => intro acc; simp [ih]

/-- The candidate the decode loop appends for a passing cell `(y, x)`. -/
def decodeCand (sm : ScoreMap) (gm : GeoMap) (cosF sinF : ℚ → ℚ)
    (y x : ℕ) : Cand :=
  let offset_x : ℚ := (x : ℚ) * 4
  let offset_y : ℚ := (y : ℚ) * 4
  let c := cosF (gm.angle y x)
  let s := sinF (gm.angle y x)
  let h := gm.d0 y x + gm.d2 y x
  let w := gm.d1 y x + gm.d3 y x
  let endX := pyInt (offset_x + c * gm.d1 y x + s * gm.d2 y x)
  let endY := pyInt (offset_y - s * gm.d1 y x + c * gm.d2 y x)
  let startX := pyInt ((endX : ℚ) - w)
  let startY := pyInt ((endY : ℚ) - h)
  { box := { startX := startX, startY := startY, endX := endX, endY := endY },
    conf := sm.score y x }

theorem filter_map_eq_filterMap {α β : Type} (P : α → Prop) [DecidablePred P]
    (f : α → β) (g : α → Option β)
    (hg : ∀ x, g x = if P x then none else some (f x)) :
    ∀ l : List α, (l.filter fun x => !decide (P x)).map f = l.filterMap g := by
  intro l
  induction l with
  | nil => simp
  | cons x xs ih =>
    by_cases hx : P x <;>
      simp [List.filter_cons, List.filterMap_cons, hg, hx, ih]

/-- The decode loop emits, in row-major order, exactly one candidate per cell
whose score passes the threshold, built by the geometry formulas. -/
theorem decode_eq (sm : ScoreMap) (gm : GeoMap) (cosF sinF : ℚ → ℚ)
    (min_confidence : ℚ) :
    decode sm gm cosF sinF min_confidence =
      (List.range sm.numRows).flatMap fun y =>
        ((List.range sm.numCols).filter fun x =>
            !decide (sm.score y x < min_confidence)).map
          (decodeCand sm gm cosF sinF y) := by
  unfold decode
  exact foldl_of_append
    (fun acc y => List.foldl (fun acc2 x =>
      if sm.score y x < min_confidence then acc2
      else acc2 ++ [decodeCand sm gm cosF sinF y x]) acc (List.range sm.numCols))
    (fun y => List.map (decodeCand sm gm cosF sinF y)
      (List.filter (fun x => !decide (sm.score y x < min_confidence))
        (List.range sm.numCols)))
    (fun acc y => foldl_skip_append (fun x => sm.score y x < min_confidence)
      (decodeCand sm gm cosF sinF y) (List.range sm.numCols) acc)
    (List.range sm.numRows) []

/-- The decode loop is the row-major concatenation of the per-cell
emissions. -/
theorem decode_eq_filterMap (sm : ScoreMap) (gm : GeoMap) (cosF sinF : ℚ → ℚ)
    (min_confidence : ℚ) :
    decode sm gm cosF sinF min_confidence =
      (List.range sm.numRows).flatMap fun y =>
        (List.range sm.numCols).filterMap
          (decodeCell sm gm cosF sinF min_confidence y) := by
  rw [decode_eq]
  exact congrArg (List.flatMap (List.range sm.numRows))
    (funext fun y => filter_map_eq_filterMap
      (fun x => sm.score y x < min_confidence) (decodeCand sm gm cosF sinF y)
      (decodeCell sm gm cosF sinF min_confidence y) (fun x => rfl)
      (List.range sm.numCols))

theorem greedyAux_sublist (thr : ℚ) :
    ∀ (n : ℕ) (l : List Cand), (greedyAux thr n l).Sublist l := by
  intro n
  induction n with
  | zero => intro l; simp [greedyAux]
  | succ n ih =>
    intro l
    cases l with
    | nil => simp [greedyAux]
    | cons b rest =>
      simp only [greedyAux]
      exact List.Sublist.cons₂ b ((ih _).trans (List.filter_sublist rest))

theorem greedyAux_pairwise (thr : ℚ) :
    ∀ (n : ℕ) (l : List Cand), l.length ≤ n →
      (greedyAux thr n l).Pairwise fun a b => iou a.box b.box ≤ thr := by
  intro n
  induction n with
  | zero => intro l _; simp [greedyAux]
  | succ n ih =>
    intro l h
    cases l with
    | nil => simp [greedyAux]
    | cons b rest =>
      simp only [greedyAux]
      refine List.Pairwise.cons ?_ (ih _ ?_)
      · intro c hc
        have hc2 := (greedyAux_sublist thr n _).subset hc
        simpa using (List.mem_filter.mp hc2).2
      · exact le_trans (List.length_filter_le _ rest) (Nat.le_of_succ_le_succ h)

theorem greedyAux_eq_self (thr : ℚ) :
    ∀ (n : ℕ) (l : List Cand), l.length ≤ n →
      l.Pairwise (fun a b => iou a.box b.box ≤ thr) → greedyAux thr n l = l := by
  intro n
  induction n with
  | zero =>
    intro l h _
    cases l with
    | nil => simp [greedyAux]
    | cons b rest => simp at h
  | succ n ih =>
    intro l h hp
    cases l with
    | nil => simp [greedyAux]
    | cons b rest =>
      simp only [greedyAux]
      have hfilter : rest.filter (fun c => decide (iou b.box c.box ≤ thr)) = rest :=
        List.filter_eq_self.mpr fun c hc => by
          simpa using (List.pairwise_cons.mp hp).1 c hc
      rw [hfilter]
      exact congrArg (b :: ·)
        (ih rest (Nat.le_of_succ_le_succ h) (List.pairwise_cons.mp hp).2)

theorem mem_insertDesc (c x : Cand) :
    ∀ l : List Cand, x ∈ insertDesc c l ↔ x = c ∨ x ∈ l := by
  intro l
  induction l with
  | nil => simp [insertDesc]
  | cons b rest ih =>
    by_cases hb : b.conf ≤ c.conf
    · simp [insertDesc, hb]
    · simp only [insertDesc, if_neg hb, List.mem_cons, ih]
      tauto

theorem insertDesc_pairwise (c : Cand) :
    ∀ l : List Cand, l.Pairwise (fun a b => b.conf ≤ a.conf) →
      (insertDesc c l).Pairwise fun a b => b.conf ≤ a.conf := by
  intro l
  induction l with
  | nil => intro _; simp [insertDesc]
  | cons b rest ih =>
    intro hp
    rw [List.pairwise_cons] at hp
    by_cases hb : b.conf ≤ c.conf
    · simp only [insertDesc, if_pos hb]
      refine List.Pairwise.cons ?_ (List.Pairwise.cons hp.1 hp.2)
      intro a ha
      rcases List.mem_cons.mp ha with h | h
      · exact h ▸ hb
      · exact le_trans (hp.1 a h) hb
    · simp only [insertDesc, if_neg hb]
      refine List.Pairwise.cons ?_ (ih hp.2)
      intro a ha
      rcases (mem_insertDesc c a rest).mp ha with h | h
      · exact h ▸ le_of_not_le hb
      · exact hp.1 a h

theorem sortDesc_pairwise :
    ∀ l : List Cand, (sortDesc l).Pairwise fun a b => b.conf ≤ a.conf := by
  intro l
  induction l with
  | nil => simp [sortDesc]
  | cons c rest ih => exact insertDesc_pairwise c (sortDesc rest) ih

theorem sortDesc_eq_self :
    ∀ l : List Cand, l.Pairwise (fun a b => b.conf ≤ a.conf) →
      sortDesc l = l := by
  intro l
  induction l with
  | nil => intro _; rfl
  | cons c rest ih =>
    intro hp
    rw [List.pairwise_cons] at hp
    show insertDesc c (sortDesc rest) = c :: rest
    rw [ih hp.2]
    cases rest with
    | nil => rfl
    | cons b rest2 => simp [insertDesc, hp.1 b (by simp)]

theorem nms_pairwise (thr : ℚ) (l : List Cand) :
    (nms thr l).Pairwise fun a b => iou a.box b.box ≤ thr :=
  greedyAux_pairwise thr _ _ le_rfl

theorem nms_sorted (thr : ℚ) (l : List Cand) :
    (nms thr l).Pairwise fun a b => b.conf ≤ a.conf :=
  List.Pairwise.sublist (greedyAux_sublist thr _ _) (sortDesc_pairwise l)

/-- The normalization loop maps the two-stage clamp-pad-clamp over the
retained candidates, preserving their order. -/
theorem normalizeRegions_eq (W H : ℤ) (retained : List Cand) :
    normalizeRegions W H retained = retained.map fun c => normBox W H c.box := by
  unfold normalizeRegions
  exact foldl_append_map _ retained []

/-- The extraction loop records one string per region, in region order, and
the first output component joins the non-empty ones with a blank line. -/
theorem extract_eq {γ : Type} (env : OcrEnv γ) (W H : ℤ)
    (regions : List Box) :
    extract_text_from_image_array env W H regions =
      (String.intercalate "\n\n"
        ((regions.map (perRegionText env W H)).filter fun t => !(t == "")),
       regions.map (perRegionText env W H)) := by
  show (String.intercalate "\n\n"
      ((List.foldl (fun acc r => acc ++ [perRegionText env W H r]) []
          regions).filter fun t => !(t == "")),
    List.foldl (fun acc r => acc ++ [perRegionText env W H r]) [] regions) = _
  rw [foldl_append_map (perRegionText env W H) regions []]
  rfl

/-- C1: as stated, the claim fails — a candidate box entirely outside the
image clamps to a degenerate region, so `startX < endX` and `startY < endY`
do not hold for every produced region.  Here the pipeline produces the region
(195, 195, 100, 100) on a 100-by-100 image. -/
theorem c1_counterexample :
    ¬ ∀ b ∈ text_regions smOne gmFar cosOne sinZero (1 / 2) 100 100,
        0 ≤ b.startX ∧ b.startX < b.endX ∧ b.endX ≤ 100 ∧
        0 ≤ b.startY ∧ b.startY < b.endY ∧ b.endY ≤ 100 := by
  decide

/-- C1 (amended): every region produced by the detection pipeline satisfies
0 ≤ startX, endX ≤ W, 0 ≤ startY and endY ≤ H; the strict inequalities
startX < endX and startY < endY can fail (degenerate regions). -/
theorem c1_theorem (sm : ScoreMap) (gm : GeoMap) (cosF sinF : ℚ → ℚ)
    (min_confidence : ℚ) (W H : ℤ) (b : Box)
    (hb : b ∈ text_regions sm gm cosF sinF min_confidence W H) :
    0 ≤ b.startX ∧ b.endX ≤ W ∧ 0 ≤ b.startY ∧ b.endY ≤ H := by
  unfold text_regions at hb
  rw [normalizeRegions_eq] at hb
  obtain ⟨c, -, rfl⟩ := List.mem_map.mp hb
  refine ⟨?_, ?_, ?_, ?_⟩ <;> simp only [normBox] <;> omega

theorem c1_witness :
    (Box.mk 0 0 15 15 ∈
        text_regions smOne gmSmall cosOne sinZero (1 / 2) 100 100) ∧
    (0 ≤ (Box.mk 0 0 15 15).startX ∧ (Box.mk 0 0 15 15).endX ≤ 100 ∧
     0 ≤ (Box.mk 0 0 15 15).startY ∧ (Box.mk 0 0 15 15).endY ≤ 100) :=
  ⟨by decide, c1_theorem smOne gmSmall cosOne sinZero (1 / 2) 100 100
    (Box.mk 0 0 15 15) (by decide)⟩

/-- C2: as stated, the claim fails — suppression guarantees pairwise IoU at
most 0.3, but the normalization that follows (clamping and 5-pixel padding)
can push the IoU of two retained boxes above 0.3.  Here the final list holds
(0, 0, 15, 15) and (5, 0, 25, 15), whose IoU is 2/5. -/
theorem c2_counterexample :
    text_regions smTwo gmTwo cosOne sinZero (1 / 2) 100 100 =
      [Box.mk 0 0 15 15, Box.mk 5 0 25 15] ∧
    iou (Box.mk 0 0 15 15) (Box.mk 5 0 25 15) = 2 / 5 ∧
    ¬ (2 / 5 : ℚ) ≤ 3 / 10 := by
  decide

/-- C2 (amended): every pair of distinct candidates retained by the
suppression step (before normalization) has IoU at most the suppression
threshold 0.3. -/
theorem c2_theorem (cands : List Cand) :
    (nms (3 / 10) cands).Pairwise fun a b => iou a.box b.box ≤ 3 / 10 :=
  nms_pairwise (3 / 10) cands

/-- C3: for every cell at or above the threshold the decoder emits exactly
one candidate, with the stated offset, trigonometric corner and size
formulas, integer-truncated, and with the cell's score as confidence; cells
below the threshold are filtered out. -/
theorem c3_theorem (sm : ScoreMap) (gm : GeoMap) (cosF sinF : ℚ → ℚ)
    (min_confidence : ℚ) :
    decode sm gm cosF sinF min_confidence =
      (List.range sm.numRows).flatMap fun y =>
        ((List.range sm.numCols).filter fun x =>
            !decide (sm.score y x < min_confidence)).map fun x =>
          { box := { startX := pyInt
                       ((pyInt ((x : ℚ) * 4 + cosF (gm.angle y x) * gm.d1 y x
                           + sinF (gm.angle y x) * gm.d2 y x) : ℚ)
                         - (gm.d1 y x + gm.d3 y x)),
                     startY := pyInt
                       ((pyInt ((y : ℚ) * 4 - sinF (gm.angle y x) * gm.d1 y x
                           + cosF (gm.angle y x) * gm.d2 y x) : ℚ)
                         - (gm.d0 y x + gm.d2 y x)),
                     endX := pyInt ((x : ℚ) * 4
                       + cosF (gm.angle y x) * gm.d1 y x
                       + sinF (gm.angle y x) * gm.d2 y x),
                     endY := pyInt ((y : ℚ) * 4
                       - sinF (gm.angle y x) * gm.d1 y x
                       + cosF (gm.angle y x) * gm.d2 y x) },
            conf := sm.score y x } := by
  rw [decode_eq]
  rfl

/-- C4: a cell whose score is strictly below the threshold emits nothing,
and the decoder output is exactly the row-major concatenation of the
per-cell emissions. -/
theorem c4_theorem (sm : ScoreMap) (gm : GeoMap) (cosF sinF : ℚ → ℚ)
    (min_confidence : ℚ) (y x : ℕ)
    (h : sm.score y x < min_confidence) :
    decodeCell sm gm cosF sinF min_confidence y x = none ∧
    decode sm gm cosF sinF min_confidence =
      (List.range sm.numRows).flatMap fun r =>
        (List.range sm.numCols).filterMap
          (decodeCell sm gm cosF sinF min_confidence r) :=
  ⟨by unfold decodeCell; exact if_pos h,
   decode_eq_filterMap sm gm cosF sinF min_confidence⟩

theorem c4_witness :
    (smLow.score 0 0 < 1 / 2) ∧
    (decodeCell smLow gmSmall cosOne sinZero (1 / 2) 0 0 = none ∧
     decode smLow gmSmall cosOne sinZero (1 / 2) =
       (List.range smLow.numRows).flatMap fun r =>
         (List.range smLow.numCols).filterMap
           (decodeCell smLow gmSmall cosOne sinZero (1 / 2) r)) :=
  ⟨by decide, c4_theorem smLow gmSmall cosOne sinZero (1 / 2) 0 0 (by decide)⟩

/-- C5: the suppressor on two overlapping candidates with IoU 1/2 and
confidences 9/10 and 8/10 keeps exactly the 9/10 box. -/
theorem c5_theorem :
    iou (Box.mk 0 0 10 30) (Box.mk 0 10 10 40) = 1 / 2 ∧
    nms (3 / 10) [⟨⟨0, 0, 10, 30⟩, 9 / 10⟩, ⟨⟨0, 10, 10, 40⟩, 8 / 10⟩] =
      [⟨⟨0, 0, 10, 30⟩, 9 / 10⟩] := by
  decide

/-- C6: the normalizer clamps the start corner to at least 0 and the end
corner to at most (W, H), then pads by exactly 5 pixels per side with
re-clamping, preserving the order of the suppression step. -/
theorem c6_theorem (W H : ℤ) (retained : List Cand) :
    normalizeRegions W H retained = retained.map fun c =>
      ({ startX := max 0 (max 0 c.box.startX - 5),
         startY := max 0 (max 0 c.box.startY - 5),
         endX := min W (min W c.box.endX + 5),
         endY := min H (min H c.box.endY + 5) } : Box) := by
  rw [normalizeRegions_eq]
  rfl

/-- C7: as stated, the claim fails — the candidate (-30, 10, -1, 30) lies
entirely outside a 100-by-100 image (endX = -1 < 0), yet after clamping the
5-pixel padding re-expands it to the non-degenerate region (0, 5, 4, 35),
whose crop is non-empty. -/
theorem c7_counterexample :
    normBox 100 100 (Box.mk (-30) 10 (-1) 30) = Box.mk 0 5 4 35 ∧
    ¬ ((normBox 100 100 (Box.mk (-30) 10 (-1) 30)).endX ≤
         (normBox 100 100 (Box.mk (-30) 10 (-1) 30)).startX ∨
       (normBox 100 100 (Box.mk (-30) 10 (-1) 30)).endY ≤
         (normBox 100 100 (Box.mk (-30) 10 (-1) 30)).startY) ∧
    roiEmpty 100 100 (normBox 100 100 (Box.mk (-30) 10 (-1) 30)) = false := by
  decide

/-- C7 (amended): a candidate lying beyond the right or bottom image edge by
at least the 5-pixel padding normalizes to a degenerate region, and the
extraction loop records an empty placeholder for that region and continues
with the remaining regions; a candidate outside the bounds by less than the
padding can normalize to a non-degenerate region with a non-empty crop. -/
theorem c7_theorem {γ : Type} (env : OcrEnv γ) (W H : ℤ) (b : Box)
    (pre post : List Box) (hW : 0 ≤ W) (hH : 0 ≤ H)
    (hout : W + 5 ≤ b.startX ∨ H + 5 ≤ b.startY) :
    ((normBox W H b).endX ≤ (normBox W H b).startX ∨
     (normBox W H b).endY ≤ (normBox W H b).startY) ∧
    perRegionText env W H (normBox W H b) = "" ∧
    (extract_text_from_image_array env W H (pre ++ normBox W H b :: post)).2 =
      (extract_text_from_image_array env W H pre).2 ++
        "" :: (extract_text_from_image_array env W H post).2 := by
  have he : roiEmpty W H (normBox W H b) = true := by
    simp only [roiEmpty, pySliceLen, normBox, Bool.or_eq_true, beq_iff_eq]
    rcases hout with h | h
    · right; split_ifs <;> omega
    · left; split_ifs <;> omega
  have hper : perRegionText env W H (normBox W H b) = "" := by
    simp [perRegionText, he]
  refine ⟨?_, hper, ?_⟩
  · simp only [normBox]
    rcases hout with h | h
    · left; omega
    · right; omega
  · rw [extract_eq, extract_eq, extract_eq]
    simp [List.map_append, hper]

theorem c7_witness :
    (0 ≤ (100 : ℤ)) ∧ (0 ≤ (100 : ℤ)) ∧
    ((100 : ℤ) + 5 ≤ (Box.mk 210 10 220 30).startX ∨
     (100 : ℤ) + 5 ≤ (Box.mk 210 10 220 30).startY) ∧
    (((normBox 100 100 (Box.mk 210 10 220 30)).endX ≤
        (normBox 100 100 (Box.mk 210 10 220 30)).startX ∨
      (normBox 100 100 (Box.mk 210 10 220 30)).endY ≤
        (normBox 100 100 (Box.mk 210 10 220 30)).startY) ∧
     perRegionText envOcrGood 100 100 (normBox 100 100 (Box.mk 210 10 220 30)) = "" ∧
     (extract_text_from_image_array envOcrGood 100 100
        ([Box.mk 0 0 10 10] ++ normBox 100 100 (Box.mk 210 10 220 30) :: [])).2 =
       (extract_text_from_image_array envOcrGood 100 100 [Box.mk 0 0 10 10]).2 ++
         "" :: (extract_text_from_image_array envOcrGood 100 100 []).2) :=
  ⟨by decide, by decide, Or.inl (by decide),
   c7_theorem envOcrGood 100 100 (Box.mk 210 10 220 30) [Box.mk 0 0 10 10] []
     (by decide) (by decide) (Or.inl (by decide))⟩

/-- C8: as stated, the claim fails — the image-unreadable failure and the
model-unavailable failure are reported by the same value (the None triple),
so the two whole-detection failure kinds are not distinct, identifiable
error values; each is only distinct from the zero-regions outcome. -/
theorem c8_counterexample :
    detect_text_regions envImgFail (Sum.inl "book_page.jpg") (7 / 10) =
      detect_text_regions envNetFail (Sum.inr ()) (7 / 10) ∧
    detect_text_regions envImgFail (Sum.inl "book_page.jpg") (7 / 10) = none := by
  decide

/-- C8 (amended): a missing or unreadable image makes `detect` return the
failure value `none` whatever the inference capability would do (the failure
is signaled before inference), an unavailable model also returns `none`, and
when both image and model load the result is `some` of the region list, so
both failure kinds are distinct from the valid zero-regions outcome
`some []` — but the two failure kinds share the same error value. -/
theorem c8_theorem {Img Net : Type} (env : DetectEnv Img Net)
    (min_confidence : ℚ) :
    (∀ path : String, env.fileExists path = false ∨ env.imread path = none →
        detect_text_regions env (Sum.inl path) min_confidence = none) ∧
    (∀ input : String ⊕ Img, env.readNet = none →
        detect_text_regions env input min_confidence = none) ∧
    (∀ (input : String ⊕ Img) (img : Img) (net : Net),
        loadImage env input = some img → env.readNet = some net →
        detect_text_regions env input min_confidence =
          some (text_regions (env.forward net img).1 (env.forward net img).2
            env.cosF env.sinF min_confidence (env.dims img).2
            (env.dims img).1)) := by
  refine ⟨?_, ?_, ?_⟩
  · intro path h
    unfold detect_text_regions loadImage
    rcases h with h | h
    · simp [h]
    · cases hfe : env.fileExists path <;> simp [h, hfe]
  · intro input h
    unfold detect_text_regions
    cases loadImage env input <;> simp [h]
  · intro input img net himg hnet
    unfold detect_text_regions
    rw [himg, hnet]

theorem c8_witness :
    (envImgFail.fileExists "x" = false ∨ envImgFail.imread "x" = none) ∧
    detect_text_regions envImgFail (Sum.inl "x") (7 / 10) = none ∧
    envNetFail.readNet = none ∧
    detect_text_regions envNetFail (Sum.inr ()) (7 / 10) = none ∧
    (loadImage envZero (Sum.inr ()) = some () ∧ envZero.readNet = some ()) ∧
    detect_text_regions envZero (Sum.inr ()) (7 / 10) = some [] :=
  ⟨Or.inl (by decide),
   (c8_theorem envImgFail (7 / 10)).1 "x" (Or.inl (by decide)),
   by decide,
   (c8_theorem envNetFail (7 / 10)).2.1 (Sum.inr ()) (by decide),
   ⟨by decide, by decide⟩,
   ((c8_theorem envZero (7 / 10)).2.2 (Sum.inr ()) () () (by decide)
     (by decide)).trans (by decide)⟩

/-- C9: the extraction loop records one string per region in region order —
an empty crop, a preprocessing failure or a recognition failure each record
the empty string for that region and the loop continues — and the first
output component is the non-empty entries joined by a blank line. -/
theorem c9_theorem {γ : Type} (env : OcrEnv γ) (W H : ℤ)
    (regions : List Box) :
    extract_text_from_image_array env W H regions =
      (String.intercalate "\n\n"
        ((regions.map (perRegionText env W H)).filter fun t => !(t == "")),
       regions.map (perRegionText env W H)) ∧
    (∀ r : Box, env.preprocess r = none → perRegionText env W H r = "") ∧
    (∀ (r : Box) (p : γ), env.preprocess r = some p → env.recognize p = none →
        perRegionText env W H r = "") ∧
    (∀ r : Box, roiEmpty W H r = true → perRegionText env W H r = "") := by
  refine ⟨extract_eq env W H regions, ?_, ?_, ?_⟩
  · intro r hp
    unfold perRegionText
    cases roiEmpty W H r <;> simp [hp]
  · intro r p hp hr
    unfold perRegionText
    cases roiEmpty W H r <;> simp [hp, hr]
  · intro r hr
    simp [perRegionText, hr]

theorem c9_witness :
    extract_text_from_image_array envOcrMixed 50 50
        [Box.mk 0 0 8 8, Box.mk 1 0 8 8, Box.mk 1 1 8 8] =
      ("ok", ["", "", "ok"]) ∧
    envOcrMixed.preprocess (Box.mk 0 0 8 8) = none ∧
    perRegionText envOcrMixed 50 50 (Box.mk 0 0 8 8) = "" :=
  ⟨((c9_theorem envOcrMixed 50 50
      [Box.mk 0 0 8 8, Box.mk 1 0 8 8, Box.mk 1 1 8 8]).1).trans (by decide),
   by decide,
   (c9_theorem envOcrMixed 50 50
      [Box.mk 0 0 8 8, Box.mk 1 0 8 8, Box.mk 1 1 8 8]).2.1
     (Box.mk 0 0 8 8) (by decide)⟩

/-- C10: greedy non-maximum suppression at the threshold 0.3 is idempotent —
applying it to its own output returns that output unchanged. -/
theorem c10_theorem (l : List Cand) :
    nms (3 / 10) (nms (3 / 10) l) = nms (3 / 10) l := by
  have hs : sortDesc (nms (3 / 10) l) = nms (3 / 10) l :=
    sortDesc_eq_self _ (nms_sorted (3 / 10) l)
  show greedyAux (3 / 10) (sortDesc (nms (3 / 10) l)).length
      (sortDesc (nms (3 / 10) l)) = nms (3 / 10) l
  rw [hs]
  exact greedyAux_eq_self (3 / 10) _ _ le_rfl (nms_pairwise (3 / 10) l)
